import Mathlib

/-!
Verification of the recording orchestrator of `motion-detector/detector.py`:
threshold/mask generation, the disk capacity manager, the event recording
session manager (webhooks) and the process-manager reconciliation loop,
embedded as executable Lean definitions with theorems about the claims of
the specification.
-/

namespace Detector

/-! ## Threshold generation (`generate_motion_conf`, detector.py lines 334-378) -/

/-- Floor of the base-2 logarithm, by fuel recursion (any `fuel ≥ n` gives
the exact value; `lg2` below passes `n` itself). -/
def lg2go : Nat → Nat → Nat
  | 0, _ => 0
  | fuel + 1, n => if n ≤ 1 then 0 else lg2go fuel (n / 2) + 1

def lg2 (n : Nat) : Nat := lg2go n n

/-- Round `a / b` to the nearest integer, ties to even (the IEEE-754
round-to-nearest rule used by every binary64 operation). -/
def roundTEdiv (a b : Nat) : Nat :=
  let q := a / b
  let r := a % b
  if 2 * r < b then q else if b < 2 * r then q + 1 else if q % 2 = 0 then q else q + 1

/-- The binary64 evaluation of `int(5000 - ((s / 100.0) * 4700))`
(detector.py line 343), computed exactly in integer arithmetic: every
intermediate double is represented by its value scaled by `2^60` (an
integer, because for `1 ≤ s ≤ 100` each intermediate lies in a binade whose
unit in the last place is at least `2^-59`), and each operation result is
rounded to 53 significant bits with ties to even.  `int()` truncates toward
zero, which for these positive values is floor. -/
def thresholdFloat (s : Nat) : Nat :=
  -- x = fl(s / 100.0); X = x * 2^60; e1p = ⌊log2 (s/100)⌋ + 60
  let e1p := lg2 (s * 2 ^ 60 / 100)
  let m1 := roundTEdiv (s * 2 ^ (112 - e1p)) 100
  let X := m1 * 2 ^ (e1p - 52)
  -- y = fl(x * 4700.0); Y = y * 2^60; e2p = ⌊log2 (x*4700)⌋ + 60
  let n2 := X * 4700
  let e2p := lg2 n2
  let m2 := roundTEdiv n2 (2 ^ (e2p - 52))
  let Y := m2 * 2 ^ (e2p - 52)
  -- z = fl(5000.0 - y); Z = z * 2^60
  let n3 := 5000 * 2 ^ 60 - Y
  let e3p := lg2 n3
  let m3 := roundTEdiv n3 (2 ^ (e3p - 52))
  let Z := m3 * 2 ^ (e3p - 52)
  Z / 2 ^ 60

/-- Models `sensitivity = camera.motion_sensitivity if camera.motion_sensitivity else 50`
(detector.py line 342): Python truthiness treats both `None` and `0` as
falsy, so a stored sensitivity of `0` silently falls back to the default 50. -/
def effectiveSensitivity : Option Nat → Nat
  | none => 50
  | some s => if s = 0 then 50 else s

/-- The threshold value written into the generated motion configuration
(`threshold {threshold}`, detector.py line 360) for a camera whose
`motion_sensitivity` column holds `s`. -/
def thresholdWritten (s : Nat) : Nat := thresholdFloat (effectiveSensitivity (some s))

/-! ## Mask generation (`generate_mask_file`, detector.py lines 313-332) -/

/-- Models `roi_string.split(',')` on the character list: split at every comma,
keeping empty tokens (Python keeps them; the generator expression then drops
them with `if i`). -/
def splitCommas : List Char → List (List Char)
  | [] => [[]]
  | c :: rest =>
    if c = ',' then [] :: splitCommas rest
    else
      match splitCommas rest with
      | t :: ts => (c :: t) :: ts
      | [] => [[c]]

def digitVal (c : Char) : Option Nat :=
  if '0' ≤ c ∧ c ≤ '9' then some (c.toNat - 48) else none

def parseNatAux : List Char → Nat → Option Nat
  | [], acc => some acc
  | c :: rest, acc =>
    match digitVal c with
    | some d => parseNatAux rest (acc * 10 + d)
    | none => none

/-- Models `int(token)` for a decimal token with an optional leading minus sign.
(Python's `int` also tolerates surrounding whitespace and underscores; the
ROI strings the claims quantify over are plain decimals.)  `none` models the
`ValueError` Python raises on a malformed token. -/
def parseIntTok : List Char → Option Int
  | [] => none
  | '-' :: rest => if rest = [] then none else (parseNatAux rest 0).map (fun n => -(n : Int))
  | cs => (parseNatAux cs 0).map Int.ofNat

/-- Models `set(int(i) for i in roi_string.split(',') if i)`: split on commas, drop
empty tokens, parse each with `int(...)`.  A token `int()` cannot parse makes
Python raise, caught by the surrounding `except` (the function returns
`False` and writes nothing); that is the `none` case here.  The empty string
splits to `[""]`, whose only token is dropped, giving `some []`, which
matches the `if roi_string:` guard leaving the mask all zero. -/
def parseRoi (roi_string : String) : Option (List Int) :=
  ((splitCommas roi_string.toList).filter (fun t => t ≠ [])).mapM parseIntTok

/-- One `mask[row, col] = 255` assignment (detector.py lines 318-322): cells
outside `[0, 100)` are skipped; row is `cell // 10`, col is `cell % 10`.
The mask is a function from (row, col) to the stored byte. -/
def setCell (m : Nat → Nat → Nat) (cell : Int) : Nat → Nat → Nat :=
  if 0 ≤ cell ∧ cell < 100 then
    fun r c => if r = cell.toNat / 10 ∧ c = cell.toNat % 10 then 255 else m r c
  else m

/-- The 10×10 mask built from the parsed ROI cells, starting from
`np.zeros((10, 10), dtype=np.uint8)`.  Python iterates a `set`, but the
assignments commute and are idempotent, so folding over the parsed list in
order gives the same mask. -/
def buildMask (cells : List Int) : Nat → Nat → Nat :=
  cells.foldl setCell (fun _ _ => 0)

/-- The PGM header bytes `b"P5\n" ++ b"10 10\n" ++ b"255\n"` written at
detector.py lines 325-327. -/
def pgmHeader : List Nat := [80, 53, 10, 49, 48, 32, 49, 48, 10, 50, 53, 53, 10]

/-- The full byte content of the mask file: the 13 header bytes followed by
`mask.tobytes()`, i.e. the 100 cells in row-major order (byte `i` of the
raster is cell `(i / 10, i % 10)`). -/
def maskFileBytes (cells : List Int) : List Nat :=
  pgmHeader ++ (List.range 100).map (fun i => buildMask cells (i / 10) (i % 10))

/-! ## Disk capacity manager (`disk_manager_loop`, detector.py lines 273-307) -/

/-- A continuous-recording segment file, by its modification time and size. -/
structure FileRec where
  mtime : Nat
  size : Nat
deriving DecidableEq

def MIN_FREE_BYTES : Nat := 10 * 1024 * 1024 * 1024

def TARGET_FREE_BYTES : Nat := 15 * 1024 * 1024 * 1024

/-- Stable insertion into a list already sorted by ascending `mtime`,
used to model `files.sort(key=os.path.getmtime)`. -/
def insertByMtime (f : FileRec) : List FileRec → List FileRec
  | [] => [f]
  | g :: gs => if f.mtime < g.mtime then f :: g :: gs else g :: insertByMtime f gs

/-- Models `files.sort(key=os.path.getmtime)`: ascending by modification time. -/
def sortByMtime (files : List FileRec) : List FileRec :=
  files.foldr insertByMtime []

/-- The deletion loop (detector.py lines 290-298): delete files in list
order, accumulating `freed_bytes`, and `break` once
`usage.free + freed_bytes > TARGET_FREE_BYTES` — a strict comparison,
checked after each deletion.  Returns the deleted files in deletion order.
Per-file `os.remove` errors are logged and skipped by the code; the model
has every deletion succeed. -/
def evictGo (free : Nat) : Nat → List FileRec → List FileRec
  | _, [] => []
  | freed, f :: rest =>
    f :: (if TARGET_FREE_BYTES < free + (freed + f.size) then []
          else evictGo free (freed + f.size) rest)

/-- One disk-check iteration (detector.py lines 280-302): when free space is
below `MIN_FREE_BYTES`, sort every continuous segment file by mtime and run
the deletion loop; otherwise delete nothing. -/
def diskCheck (free : Nat) (files : List FileRec) : List FileRec :=
  if free < MIN_FREE_BYTES then evictGo free 0 (sortByMtime files) else []

/-- Total size of a list of files. -/
def sumSize (files : List FileRec) : Nat := (files.map FileRec.size).sum

/-! ## Association lists

`active_recordings`, `running_motion_processes` and
`running_continuous_processes` are Python dicts keyed by camera id; they are
modelled as association lists in insertion order, with lookup by first
matching key. -/

def alookup {α : Type} (k : Nat) : List (Nat × α) → Option α
  | [] => none
  | (k1, v) :: rest => if k1 = k then some v else alookup k rest

/-! ## Event recording session manager (webhooks, detector.py lines 79-199) -/

/-- A row of the `events` table, as read and written by the session manager
(`start_time`, `video_path`, … are never consulted by the claims and are
omitted). -/
structure Ev where
  id : Nat
  cam : Nat
  end_time : Option Nat
deriving DecidableEq

/-- Session-manager state: the persisted `events` rows and the
`active_recordings` dict, mapping a camera id to the event id of its active
session (the process handle and output paths held alongside it play no role
in the claims).  `clock` supplies the `datetime.now` values. -/
structure SMState where
  events : List Ev
  active : List (Nat × Nat)
  clock : Nat
deriving DecidableEq

inductive Resp where
  | alreadyRecording
  | cameraNotFound
  | http500
  | recordingStarted
  | noActiveRecording
  | processFailed
  | errorStopping
  | recordingStopped
deriving DecidableEq

/-- Models `start_record_webhook` (detector.py lines 79-147).  Environment outcomes
are inputs: `camExists` (the camera row lookup, line 89), `commitOk` (the
`db.commit()` of the new row, line 114), `popenOk` (the `subprocess.Popen`
launch, line 132).  Returns the new state, the response, and whether a
recording subprocess was spawned.  When the commit fails, `db.rollback()`
discards the uncommitted row; when the launch fails after the commit, the
`db.rollback()` at line 144 has no effect on the already-committed row,
which therefore persists with `end_time` null.  The new row's id models the
autoincrement primary key. -/
def startRecord (st : SMState) (cid : Nat) (camExists commitOk popenOk : Bool) :
    SMState × Resp × Bool :=
  if (alookup cid st.active).isSome then (st, .alreadyRecording, false)
  else if ¬camExists then (st, .cameraNotFound, false)
  else if ¬commitOk then (st, .http500, false)
  else
    let ev : Ev := ⟨st.events.length, cid, none⟩
    let st1 : SMState := ⟨st.events ++ [ev], st.active, st.clock + 1⟩
    if ¬popenOk then (st1, .http500, false)
    else (⟨st1.events, (cid, ev.id) :: st1.active, st1.clock⟩, .recordingStarted, true)

def startsWith : List Char → List Char → Bool
  | [], _ => true
  | _ :: _, [] => false
  | a :: as, b :: bs => if a = b then startsWith as bs else false

def hasSub (pat : List Char) : List Char → Bool
  | [] =>
    match pat with
    | [] => true
    | _ :: _ => false
  | b :: bs => if startsWith pat (b :: bs) then true else hasSub pat bs

/-- Python's substring test `pat in s`. -/
def containsSub (pat s : String) : Bool := hasSub pat.toList s.toList

/-- Models `"No such file or directory" in stderr_output or "Error" in stderr_output`
(detector.py line 165). -/
def indicatesFailure (stderr : String) : Bool :=
  containsSub "No such file or directory" stderr || containsSub "Error" stderr

/-- Models `stop_record_webhook` (detector.py lines 149-199).  Environment
outcomes: `termExc` (an exception from `terminate`/`communicate`, caught at
line 169, after which the process is killed and the stderr check is
skipped), `stderr` (the captured output when no exception occurred) and
`dbOk` (the `end_time` commit at line 178).  The session entry is popped up
front (line 157).  When the stderr check matches, the handler returns
`"Recording process failed"` at line 167 before the DB block, leaving
`end_time` untouched; when the DB update raises, the `except` at line 194
likewise leaves `end_time` untouched. -/
def stopRecord (st : SMState) (cid : Nat) (termExc : Bool) (stderr : String) (dbOk : Bool) :
    SMState × Resp :=
  match alookup cid st.active with
  | none => (st, .noActiveRecording)
  | some eid =>
    let st1 : SMState := ⟨st.events, st.active.filter (fun p => p.1 != cid), st.clock⟩
    if ¬termExc ∧ indicatesFailure stderr = true then (st1, .processFailed)
    else if ¬dbOk then (st1, .errorStopping)
    else
      match st1.events.find? (fun ev => ev.id == eid) with
      | some _ =>
        (⟨st1.events.map (fun ev => if ev.id = eid then ⟨ev.id, ev.cam, some st.clock⟩ else ev),
          st1.active, st.clock + 1⟩, .recordingStopped)
      | none => (st1, .errorStopping)

/-- One inbound webhook call together with its environment outcomes. -/
inductive Action where
  | start (cid : Nat) (camExists commitOk popenOk : Bool)
  | stop (cid : Nat) (termExc : Bool) (stderr : String) (dbOk : Bool)
deriving DecidableEq

def step (st : SMState) : Action → SMState
  | .start cid ce co po => (startRecord st cid ce co po).1
  | .stop cid te se db => (stopRecord st cid te se db).1

/-- The startup state: no events, no active recordings. -/
def init : SMState := ⟨[], [], 0⟩

/-- The state after a sequence of webhook calls from startup. -/
def run (tr : List Action) : SMState := tr.foldl step init

/-- The spec invariant (§3): an event row has `end_time = null` exactly when
an `active_recordings` entry references it. -/
def OpenIff (st : SMState) : Prop :=
  ∀ ev ∈ st.events, (ev.end_time = none ↔ ∃ c, (c, ev.id) ∈ st.active)

/-- Actions on which every DB write and every recording-subprocess launch
succeeds and no stop's termination output indicates failure. -/
def goodAction : Action → Bool
  | .start _ _ commitOk popenOk => commitOk && popenOk
  | .stop _ termExc stderr dbOk => dbOk && (termExc || !indicatesFailure stderr)

/-- The inductive invariant of the session manager: event ids are the list
positions (autoincrement), the session map has no duplicate cameras and no
duplicate event ids, every session entry points at an existing open event of
its camera, and every open event is referenced by some session entry. -/
def Inv (st : SMState) : Prop :=
  (∀ (i : Nat) (ev : Ev), st.events[i]? = some ev → ev.id = i) ∧
  (st.active.map Prod.fst).Nodup ∧
  (st.active.map Prod.snd).Nodup ∧
  (∀ p ∈ st.active, ∃ ev, st.events[p.2]? = some ev ∧ ev.cam = p.1 ∧ ev.end_time = none) ∧
  (∀ ev ∈ st.events, ev.end_time = none → ∃ c, (c, ev.id) ∈ st.active)

/-! ## Process manager (`process_manager_loop`, detector.py lines 384-441) -/

/-- A camera row as read by the process manager. -/
structure Cam where
  id : Nat
  motion_type : String
  motion_roi : Option String
  motion_sensitivity : Option Nat
  continuous_recording : Bool
deriving DecidableEq

/-- A supervised subprocess handle: a token identifying the concrete OS
process, and whether `poll()` reports it still running. -/
structure Proc where
  token : Nat
  alive : Bool
deriving DecidableEq

/-- Registry state: `running_motion_processes`, `running_continuous_processes`
and a supply of fresh process tokens. -/
structure PMState where
  runningMotion : List (Nat × Proc)
  runningContinuous : List (Nat × Proc)
  fresh : Nat
deriving DecidableEq

/-- The observable side effects of one reconciliation cycle. -/
inductive PMAct where
  | genConf (cid : Nat)
  | spawnMotion (cid : Nat)
  | termMotion (cid : Nat)
  | stopSignal (cid : Nat)
  | spawnContinuous (cid : Nat)
  | termContinuous (cid : Nat)
deriving DecidableEq

/-- Ids of the cameras with `motion_type == "active"`, in query order. -/
def activeIds (cams : List Cam) : List Nat :=
  (cams.filter (fun c => c.motion_type == "active")).map Cam.id

/-- First loop (detector.py lines 395-404): for each camera with active
motion detection and no entry in `running_motion_processes`, write the
configuration artifacts (`generate_motion_conf`, recorded as `genConf`) and
launch the `motion` daemon.  Artifact generation is modelled as succeeding;
note the loop runs for cameras already present without touching them. -/
def startMotions (fresh : Nat) (running : List (Nat × Proc)) :
    List Cam → List (Nat × Proc) × Nat × List PMAct
  | [] => (running, fresh, [])
  | cam :: rest =>
    if (alookup cam.id running).isSome then startMotions fresh running rest
    else
      let out := startMotions (fresh + 1) (running ++ [(cam.id, ⟨fresh, true⟩)]) rest
      (out.1, out.2.1, .genConf cam.id :: .spawnMotion cam.id :: out.2.2)

/-- Second loop (detector.py lines 406-414): every registered motion daemon
whose camera left the desired set is popped and terminated, and if the
camera has an entry in `active_recordings` a `POST /stop_record/{id}` is
issued (the `curl` at line 413). -/
def stopMotions (ids recs : List Nat) : List (Nat × Proc) → List (Nat × Proc) × List PMAct
  | [] => ([], [])
  | (cid, p) :: rest =>
    let out := stopMotions ids recs rest
    if ids.contains cid then ((cid, p) :: out.1, out.2)
    else (out.1, .termMotion cid :: ((if recs.contains cid then [.stopSignal cid] else []) ++ out.2))

/-- Third loop (detector.py lines 419-428): for each camera with
`continuous_recording`, launch a segmenting transcoder if none is
registered; otherwise `poll()` the handle and relaunch in place if it died. -/
def superviseContinuous (fresh : Nat) (running : List (Nat × Proc)) :
    List Cam → List (Nat × Proc) × Nat × List PMAct
  | [] => (running, fresh, [])
  | cam :: rest =>
    match alookup cam.id running with
    | none =>
      let out := superviseContinuous (fresh + 1) (running ++ [(cam.id, ⟨fresh, true⟩)]) rest
      (out.1, out.2.1, .spawnContinuous cam.id :: out.2.2)
    | some p =>
      if p.alive then superviseContinuous fresh running rest
      else
        let rep := running.map (fun q => if q.1 = cam.id then (q.1, (⟨fresh, true⟩ : Proc)) else q)
        let out := superviseContinuous (fresh + 1) rep rest
        (out.1, out.2.1, .spawnContinuous cam.id :: out.2.2)

/-- Fourth loop (detector.py lines 430-434): terminate continuous recorders
for cameras no longer in the continuous set. -/
def stopContinuous (ids : List Nat) : List (Nat × Proc) → List (Nat × Proc) × List PMAct
  | [] => ([], [])
  | (cid, p) :: rest =>
    let out := stopContinuous ids rest
    if ids.contains cid then ((cid, p) :: out.1, out.2)
    else (out.1, .termContinuous cid :: out.2)

/-- One cycle of `process_manager_loop` (detector.py lines 387-441) on the
camera rows `cams`, given the current `active_recordings` keys `recs`.
Returns the new registry state and the cycle's observable actions. -/
def pmCycle (cams : List Cam) (recs : List Nat) (st : PMState) : PMState × List PMAct :=
  let activeCams := cams.filter (fun c => c.motion_type == "active")
  let m1 := startMotions st.fresh st.runningMotion activeCams
  let m2 := stopMotions (activeIds cams) recs m1.1
  let contCams := cams.filter (fun c => c.continuous_recording)
  let contIds := contCams.map Cam.id
  let c1 := superviseContinuous m1.2.1 st.runningContinuous contCams
  let c2 := stopContinuous contIds c1.1
  (⟨m2.1, c2.1, c1.2.1⟩, m1.2.2 ++ m2.2 ++ c1.2.2 ++ c2.2)

/-! # Lemmas on association lists -/

theorem alookup_mem {α : Type} {k : Nat} {v : α} {l : List (Nat × α)}
    (h : alookup k l = some v) : (k, v) ∈ l := by
  induction l with
  | nil => simp [alookup] at h
  | cons p rest ih =>
    obtain ⟨k1, w⟩ := p
    by_cases hk : k1 = k
    · subst hk
      simp [alookup] at h
      subst h
      exact List.mem_cons_self _ _
    · simp [alookup, hk] at h
      exact List.mem_cons_of_mem _ (ih h)

theorem alookup_eq_none {α : Type} {k : Nat} {l : List (Nat × α)} :
    alookup k l = none ↔ k ∉ l.map Prod.fst := by
  induction l with
  | nil => simp [alookup]
  | cons p rest ih =>
    obtain ⟨k1, w⟩ := p
    by_cases hk : k1 = k
    · subst hk
      simp [alookup]
    · simp [alookup, hk, ih, Ne.symm hk]

theorem mem_alookup {α : Type} {k : Nat} {v : α} {l : List (Nat × α)}
    (hnd : (l.map Prod.fst).Nodup) (h : (k, v) ∈ l) : alookup k l = some v := by
  induction l with
  | nil => simp at h
  | cons p rest ih =>
    obtain ⟨k1, w⟩ := p
    simp only [List.map_cons, List.nodup_cons] at hnd
    rcases List.mem_cons.mp h with h1 | h1
    · obtain ⟨hk, hv⟩ := Prod.mk.injEq .. ▸ h1
      simp [alookup, hk.symm, hv]
    · have hk : k1 ≠ k := by
        intro he
        subst he
        exact hnd.1 (List.mem_map.mpr ⟨(k1, v), h1, rfl⟩)
      simp [alookup, hk]
      exact ih hnd.2 h1

theorem alookup_append_some {α : Type} {k : Nat} {v : α} {l1 l2 : List (Nat × α)}
    (h : alookup k l1 = some v) : alookup k (l1 ++ l2) = some v := by
  induction l1 with
  | nil => simp [alookup] at h
  | cons p rest ih =>
    obtain ⟨k1, w⟩ := p
    by_cases hk : k1 = k
    · subst hk
      simp [alookup] at h ⊢
      exact h
    · simp [alookup, hk] at h ⊢
      exact ih h

theorem alookup_append_none {α : Type} {k : Nat} {l1 l2 : List (Nat × α)}
    (h : alookup k l1 = none) : alookup k (l1 ++ l2) = alookup k l2 := by
  induction l1 with
  | nil => simp
  | cons p rest ih =>
    obtain ⟨k1, w⟩ := p
    by_cases hk : k1 = k
    · subst hk
      simp [alookup] at h
    · simp [alookup, hk] at h ⊢
      exact ih h

theorem alookup_filter_ne {α : Type} {k : Nat} {l : List (Nat × α)} :
    alookup k (l.filter (fun p => p.1 != k)) = none := by
  induction l with
  | nil => simp [alookup]
  | cons p rest ih =>
    obtain ⟨k1, w⟩ := p
    rw [List.filter_cons]
    by_cases hk : k1 = k
    · subst hk
      simpa using ih
    · have hb : (((k1, w).1 != k) = true) := by simpa using hk
      rw [if_pos hb]
      simpa [alookup, hk] using ih

theorem alookup_map_replace_ne {α : Type} {k k1 : Nat} {w : α} {l : List (Nat × α)}
    (hk : k ≠ k1) :
    alookup k (l.map (fun q => if q.1 = k1 then (q.1, w) else q)) = alookup k l := by
  induction l with
  | nil => simp
  | cons p rest ih =>
    obtain ⟨k2, v⟩ := p
    rw [List.map_cons]
    by_cases h2 : k2 = k1
    · subst h2
      rw [if_pos rfl]
      simp [alookup, Ne.symm hk, ih]
    · rw [if_neg h2]
      by_cases h3 : k2 = k
      · subst h3
        simp [alookup]
      · simp [alookup, h3, ih]

theorem alookup_map_replace_self {α : Type} {k1 : Nat} {w p : α} {l : List (Nat × α)}
    (h : alookup k1 l = some p) :
    alookup k1 (l.map (fun q => if q.1 = k1 then (q.1, w) else q)) = some w := by
  induction l with
  | nil => simp [alookup] at h
  | cons q rest ih =>
    obtain ⟨k2, v⟩ := q
    rw [List.map_cons]
    by_cases h2 : k2 = k1
    · subst h2
      rw [if_pos rfl]
      simp [alookup]
    · rw [if_neg h2]
      simp only [alookup, if_neg h2] at h
      simp [alookup, h2, ih h]

/-! # C7: threshold derivation -/

set_option maxRecDepth 10000 in
/-- The value the code writes, for every stored sensitivity in `[0, 100]`:
the exact linear value `5000 - 47*s`, except that binary64 rounding loses one
unit at `s ∈ {56, 68, 81}` and that `s = 0` is falsy and falls back to the
default sensitivity 50. -/
theorem thresholdWritten_formula :
    ∀ s, s < 101 →
      thresholdWritten s =
        if s = 0 then 2650
        else if s = 56 ∨ s = 68 ∨ s = 81 then 5000 - 47 * s - 1
        else 5000 - 47 * s := by
  decide

/-- C7, counterexample: at sensitivity 0 the generated configuration holds
threshold 2650, not `round(5000 - 0×47) = 5000`, because Python's
`if camera.motion_sensitivity` treats 0 as falsy and substitutes the default
50 (detector.py line 342). -/
theorem c7_claim_false : thresholdWritten 0 = 2650 ∧ 2650 ≠ 5000 - 47 * 0 := by
  decide

/-- C7, amended: for every stored sensitivity `s ∈ [1, 100]` the written
threshold equals `5000 - 47*s`, except at `s ∈ {56, 68, 81}` where binary64
rounding of `(s / 100.0) * 4700` truncates one unit lower; the threshold is
strictly decreasing on `[1, 100]`; a stored sensitivity of 0 is treated as
unset and falls back to the default 50, giving 2650; sensitivity 50 gives
2650. -/
theorem c7_threshold : (∀ s, s < 101 → 1 ≤ s →
      thresholdWritten s =
        (if s = 56 ∨ s = 68 ∨ s = 81 then 5000 - 47 * s - 1 else 5000 - 47 * s)) ∧
    (∀ s t, 1 ≤ s → s < t → t ≤ 100 → thresholdWritten t < thresholdWritten s) ∧
    thresholdWritten 0 = 2650 ∧ thresholdWritten 50 = 2650 := by
  have hf := thresholdWritten_formula
  refine ⟨?_, ?_, hf 0 (by omega), hf 50 (by omega)⟩
  · intro s hs hs1
    have := hf s hs
    rw [if_neg (by omega)] at this
    exact this
  · intro s t hs1 hst ht
    have h1 := hf s (by omega)
    have h2 := hf t (by omega)
    rw [if_neg (by omega)] at h1 h2
    rw [h1, h2]
    split_ifs <;> omega

/-- C7 witness: an instance of the strict-decrease conjunct at concrete
sensitivities. -/
theorem c7_threshold_witness : thresholdWritten 80 < thresholdWritten 30 :=
  c7_threshold.2.1 30 80 (by decide) (by decide) (by decide)

/-! # C9: disk eviction -/

theorem mem_insertByMtime {f x : FileRec} {l : List FileRec}
    (h : x ∈ insertByMtime f l) : x = f ∨ x ∈ l := by
  induction l with
  | nil => simpa [insertByMtime] using h
  | cons g gs ih =>
    rw [insertByMtime] at h
    by_cases hc : f.mtime < g.mtime
    · rw [if_pos hc] at h
      rcases List.mem_cons.mp h with h1 | h1
      · exact Or.inl h1
      · exact Or.inr h1
    · rw [if_neg hc] at h
      rcases List.mem_cons.mp h with h1 | h1
      · exact Or.inr (h1 ▸ List.mem_cons_self g gs)
      · rcases ih h1 with h2 | h2
        · exact Or.inl h2
        · exact Or.inr (List.mem_cons_of_mem g h2)

theorem pairwise_insertByMtime {f : FileRec} {l : List FileRec}
    (h : l.Pairwise (fun a b => a.mtime ≤ b.mtime)) :
    (insertByMtime f l).Pairwise (fun a b => a.mtime ≤ b.mtime) := by
  induction l with
  | nil => simp [insertByMtime]
  | cons g gs ih =>
    rw [insertByMtime]
    rw [List.pairwise_cons] at h
    by_cases hc : f.mtime < g.mtime
    · rw [if_pos hc]
      refine List.Pairwise.cons ?_ (List.Pairwise.cons h.1 h.2)
      intro y hy
      rcases List.mem_cons.mp hy with h1 | h1
      · subst h1
        omega
      · have := h.1 y h1
        omega
    · rw [if_neg hc]
      refine List.Pairwise.cons ?_ (ih h.2)
      intro y hy
      rcases mem_insertByMtime hy with h1 | h1
      · subst h1
        omega
      · exact h.1 y h1

/-- The sort of `disk_manager_loop` really is ascending by mtime. -/
theorem sortByMtime_pairwise (files : List FileRec) :
    (sortByMtime files).Pairwise (fun a b => a.mtime ≤ b.mtime) := by
  induction files with
  | nil => simp [sortByMtime]
  | cons f fs ih => exact pairwise_insertByMtime ih

theorem evictGo_isPre (free : Nat) :
    ∀ (l : List FileRec) (freed : Nat), ∃ t, evictGo free freed l ++ t = l := by
  intro l
  induction l with
  | nil => exact fun _ => ⟨[], rfl⟩
  | cons f rest ih =>
    intro freed
    rw [evictGo]
    by_cases hc : TARGET_FREE_BYTES < free + (freed + f.size)
    · exact ⟨rest, by rw [if_pos hc]; simp⟩
    · obtain ⟨t, ht⟩ := ih (freed + f.size)
      exact ⟨t, by rw [if_neg hc]; simpa using ht⟩

theorem evictGo_stop (free : Nat) :
    ∀ (l : List FileRec) (freed : Nat),
      evictGo free freed l = l ∨
        TARGET_FREE_BYTES < free + freed + sumSize (evictGo free freed l) := by
  intro l
  induction l with
  | nil => exact fun _ => Or.inl rfl
  | cons f rest ih =>
    intro freed
    rw [evictGo]
    by_cases hc : TARGET_FREE_BYTES < free + (freed + f.size)
    · rw [if_pos hc]
      right
      simp [sumSize]
      omega
    · rw [if_neg hc]
      rcases ih (freed + f.size) with h1 | h1
      · left
        rw [h1]
      · right
        simp only [sumSize, List.map_cons, List.sum_cons] at h1 ⊢
        omega

theorem evictGo_minimal (free : Nat) :
    ∀ (l : List FileRec) (freed : Nat), free + freed ≤ TARGET_FREE_BYTES →
      ∀ q, (∃ t, q ++ t = evictGo free freed l) → q ≠ evictGo free freed l →
        free + freed + sumSize q ≤ TARGET_FREE_BYTES := by
  intro l
  induction l with
  | nil =>
    intro freed hle q hq hne
    obtain ⟨t, ht⟩ := hq
    rw [evictGo] at ht hne
    cases q with
    | nil => exact absurd rfl hne
    | cons a as => simp at ht
  | cons f rest ih =>
    intro freed hle q hq hne
    rw [evictGo] at hq hne
    cases q with
    | nil => simpa [sumSize] using hle
    | cons a as =>
      obtain ⟨t, ht⟩ := hq
      rw [List.cons_append] at ht
      have ha : a = f := (List.cons.injEq .. ▸ ht).1
      subst ha
      have hts : as ++ t = if TARGET_FREE_BYTES < free + (freed + a.size) then []
          else evictGo free (freed + a.size) rest := (List.cons.injEq .. ▸ ht).2
      by_cases hc : TARGET_FREE_BYTES < free + (freed + a.size)
      · rw [if_pos hc] at hts hne
        have : as = [] := by
          rcases List.append_eq_nil.mp hts with ⟨h1, _⟩
          exact h1
        subst this
        exact absurd rfl hne
      · rw [if_neg hc] at hts hne
        have hne2 : as ≠ evictGo free (freed + a.size) rest := by
          intro he
          apply hne
          rw [he]
        have := ih (freed + a.size) (by omega) as ⟨t, hts⟩ hne2
        simp only [sumSize, List.map_cons, List.sum_cons] at this ⊢
        omega

/-- C9, counterexample: with 1 GiB free and two files of which the older one
is 14 GiB, deleting the older file already brings projected free space to
exactly the 15 GiB high-watermark (`≥` holds), yet the loop's strict `>`
comparison (detector.py line 297) deletes the second file as well. -/
theorem c9_claim_false :
    diskCheck (2 ^ 30) [⟨1, 14 * 2 ^ 30⟩, ⟨2, 1⟩] = [⟨1, 14 * 2 ^ 30⟩, ⟨2, 1⟩] ∧
    TARGET_FREE_BYTES ≤ 2 ^ 30 + sumSize [⟨1, 14 * 2 ^ 30⟩] := by
  decide

/-- C9, amended: when a disk-check iteration measures free bytes below the
10 GiB low-watermark, it deletes continuous segment files in ascending
modification-time order (the deleted list is a prefix of the mtime-sorted
file list), accumulating freed bytes, and stops as soon as measured free
space plus freed bytes is STRICTLY GREATER than the 15 GiB high-watermark or
no files remain: unless everything was deleted the accumulated total crosses
the watermark, and no proper prefix of the deletions had already crossed
it. -/
theorem c9_eviction (free : Nat) (files : List FileRec) (h : free < MIN_FREE_BYTES) :
    (∃ t, diskCheck free files ++ t = sortByMtime files) ∧
    (sortByMtime files).Pairwise (fun a b => a.mtime ≤ b.mtime) ∧
    (diskCheck free files = sortByMtime files ∨
      TARGET_FREE_BYTES < free + sumSize (diskCheck free files)) ∧
    (∀ q, (∃ t, q ++ t = diskCheck free files) → q ≠ diskCheck free files →
      free + sumSize q ≤ TARGET_FREE_BYTES) := by
  have hd : diskCheck free files = evictGo free 0 (sortByMtime files) := by
    rw [diskCheck, if_pos h]
  have hmin : free ≤ TARGET_FREE_BYTES := by
    have : MIN_FREE_BYTES ≤ TARGET_FREE_BYTES := by decide
    omega
  refine ⟨hd ▸ evictGo_isPre free (sortByMtime files) 0, sortByMtime_pairwise files, ?_, ?_⟩
  · rw [hd]
    rcases evictGo_stop free (sortByMtime files) 0 with h1 | h1
    · exact Or.inl h1
    · right
      omega
  · intro q hq hne
    rw [hd] at hq hne
    have h2 := evictGo_minimal free (sortByMtime files) 0 (by omega) q hq hne
    omega

/-! # C8: mask generation -/

theorem foldl_setCell (cells : List Int) (r c : Nat) :
    ∀ m : Nat → Nat → Nat,
      (cells.foldl setCell m) r c =
        if (∃ x ∈ cells, (0 ≤ x ∧ x < 100) ∧ r = x.toNat / 10 ∧ c = x.toNat % 10) then 255
        else m r c := by
  induction cells with
  | nil => simp
  | cons x xs ih =>
    intro m
    rw [List.foldl_cons, ih (setCell m x)]
    by_cases hxs : ∃ y ∈ xs, (0 ≤ y ∧ y < 100) ∧ r = y.toNat / 10 ∧ c = y.toNat % 10
    · rw [if_pos hxs, if_pos ?_]
      obtain ⟨y, hy, hvy, hry, hcy⟩ := hxs
      exact ⟨y, List.mem_cons_of_mem x hy, hvy, hry, hcy⟩
    · rw [if_neg hxs, setCell]
      by_cases hv : 0 ≤ x ∧ x < 100
      · rw [if_pos hv]
        by_cases hrc : r = x.toNat / 10 ∧ c = x.toNat % 10
        · simp only [if_pos hrc]
          rw [if_pos ⟨x, List.mem_cons_self x xs, hv, hrc⟩]
        · simp only [if_neg hrc]
          rw [if_neg ?_]
          rintro ⟨y, hy, hvy, hry, hcy⟩
          rcases List.mem_cons.mp hy with h1 | h1
          · exact hrc (h1 ▸ ⟨hry, hcy⟩)
          · exact hxs ⟨y, h1, hvy, hry, hcy⟩
      · rw [if_neg hv, if_neg ?_]
        rintro ⟨y, hy, hvy, hry, hcy⟩
        rcases List.mem_cons.mp hy with h1 | h1
        · exact hv (h1 ▸ hvy)
        · exact hxs ⟨y, h1, hvy, hry, hcy⟩

/-- C8: for any ROI string parsing to a cell set whose cells lie in
`[0, 100)`, the generated 10×10 mask holds 255 at (row r, col c) exactly
when the linear index `10*r + c` is in the set and 0 otherwise, and byte
`13 + 10*r + c` of the serialized mask file (13 header bytes, then the
raster in row-major order) holds exactly that mask value, so the property is
recoverable from the file bytes. -/
theorem c8_mask (s : String) (R : List Int) (hparse : parseRoi s = some R)
    (hrange : ∀ x ∈ R, 0 ≤ x ∧ x < 100) (r c : Nat) (hr : r < 10) (hc : c < 10) :
    buildMask R r c = (if ((10 * r + c : Nat) : Int) ∈ R then 255 else 0) ∧
    (maskFileBytes R)[13 + (10 * r + c)]? = some (buildMask R r c) := by
  constructor
  · rw [buildMask, foldl_setCell]
    congr 1
    apply propext
    constructor
    · rintro ⟨x, hx, ⟨hnn, _⟩, hrx, hcx⟩
      have hxt : x.toNat = 10 * r + c := by omega
      have : x = ((10 * r + c : Nat) : Int) := by
        rw [← hxt]
        exact (Int.toNat_of_nonneg hnn).symm
      exact this ▸ hx
    · intro hmem
      refine ⟨((10 * r + c : Nat) : Int), hmem, ⟨Int.ofNat_nonneg _, ?_⟩, ?_, ?_⟩
      · have h99 : 10 * r + c < 100 := by omega
        exact_mod_cast h99
      · simp only [Int.toNat_ofNat]
        omega
      · simp only [Int.toNat_ofNat]
        omega
  · rw [maskFileBytes]
    have hlen : pgmHeader.length = 13 := by decide
    have h13 : pgmHeader.length ≤ 13 + (10 * r + c) := by omega
    rw [List.getElem?_append_right h13, hlen]
    have hsub : 13 + (10 * r + c) - 13 = 10 * r + c := by omega
    rw [hsub, List.getElem?_map, List.getElem?_range (by omega : 10 * r + c < 100)]
    have hdiv : (10 * r + c) / 10 = r := by omega
    have hmod : (10 * r + c) % 10 = c := by omega
    simp [hdiv, hmod]

/-- C8 witness: the ROI string "0,11,22" from the spec scenario, checked at
cell (1, 1). -/
theorem c8_mask_witness :
    parseRoi "0,11,22" = some [0, 11, 22] ∧
    (buildMask [0, 11, 22] 1 1 = (if ((10 * 1 + 1 : Nat) : Int) ∈ [(0 : Int), 11, 22] then 255 else 0) ∧
      (maskFileBytes [0, 11, 22])[13 + (10 * 1 + 1)]? = some (buildMask [0, 11, 22] 1 1)) :=
  ⟨by decide, c8_mask "0,11,22" [0, 11, 22] (by decide) (by decide) 1 1 (by decide) (by decide)⟩

/-- C9 witness: the eviction contract at a concrete low-disk state. -/
theorem c9_eviction_witness :
    (2 ^ 30 : Nat) < MIN_FREE_BYTES ∧
    ((∃ t, diskCheck (2 ^ 30) [⟨5, 3⟩, ⟨2, 7⟩] ++ t = sortByMtime [⟨5, 3⟩, ⟨2, 7⟩]) ∧
    (sortByMtime [⟨5, 3⟩, ⟨2, 7⟩]).Pairwise (fun a b => a.mtime ≤ b.mtime) ∧
    (diskCheck (2 ^ 30) [⟨5, 3⟩, ⟨2, 7⟩] = sortByMtime [⟨5, 3⟩, ⟨2, 7⟩] ∨
      TARGET_FREE_BYTES < 2 ^ 30 + sumSize (diskCheck (2 ^ 30) [⟨5, 3⟩, ⟨2, 7⟩])) ∧
    (∀ q, (∃ t, q ++ t = diskCheck (2 ^ 30) [⟨5, 3⟩, ⟨2, 7⟩]) →
      q ≠ diskCheck (2 ^ 30) [⟨5, 3⟩, ⟨2, 7⟩] →
      2 ^ 30 + sumSize q ≤ TARGET_FREE_BYTES)) :=
  ⟨by decide, c9_eviction (2 ^ 30) [⟨5, 3⟩, ⟨2, 7⟩] (by decide)⟩

/-! # C1-C4: the session manager -/

theorem inv_init : Inv init := by
  refine ⟨?_, ?_, ?_, ?_, ?_⟩ <;> simp [init, Inv]

theorem inv_step {st : SMState} (hI : Inv st) {a : Action} (ha : goodAction a = true) :
    Inv (step st a) := by
  obtain ⟨hIds, hKa, hKb, hAct, hOpen⟩ := hI
  cases a with
  | start cid ce co po =>
    simp only [goodAction, Bool.and_eq_true] at ha
    obtain ⟨hco, hpo⟩ := ha
    subst hco
    subst hpo
    simp only [step, startRecord]
    by_cases h1 : (alookup cid st.active).isSome = true
    · rw [if_pos h1]
      exact ⟨hIds, hKa, hKb, hAct, hOpen⟩
    · rw [if_neg h1]
      have hnone : alookup cid st.active = none := Option.not_isSome_iff_eq_none.mp h1
      by_cases h2 : ce = true
      · rw [if_neg (by simp [h2])]
        rw [if_neg (by simp)]
        rw [if_neg (by simp)]
        show Inv ⟨st.events ++ [⟨st.events.length, cid, none⟩],
          (cid, st.events.length) :: st.active, st.clock + 1⟩
        constructor
        · -- ids
          intro i ev hi
          simp only at hi
          rcases Nat.lt_trichotomy i st.events.length with hlt | heq | hgt
          · rw [List.getElem?_append, if_pos hlt] at hi
            exact hIds i ev hi
          · subst heq
            rw [List.getElem?_append_right (Nat.le_refl _), Nat.sub_self] at hi
            simp at hi
            rw [← hi]
          · rw [List.getElem?_append_right (Nat.le_of_lt hgt),
              List.getElem?_eq_none (by simp; omega)] at hi
            exact absurd hi (by simp)
        constructor
        · -- keys nodup
          simp only [List.map_cons, List.nodup_cons]
          exact ⟨fun hmem => (alookup_eq_none.mp hnone) hmem, hKa⟩
        constructor
        · -- event ids nodup
          simp only [List.map_cons, List.nodup_cons]
          refine ⟨?_, hKb⟩
          intro hmem
          obtain ⟨p, hp, hp2⟩ := List.mem_map.mp hmem
          obtain ⟨ev, hev, _, _⟩ := hAct p hp
          have := (List.getElem?_eq_some.mp hev).1
          omega
        constructor
        · -- session entries point at open events
          intro p hp
          rcases List.mem_cons.mp hp with h3 | h3
          · subst h3
            refine ⟨⟨st.events.length, cid, none⟩, ?_, rfl, rfl⟩
            rw [List.getElem?_append_right (Nat.le_refl _), Nat.sub_self]
            simp
          · obtain ⟨ev, hev, hcam, hend⟩ := hAct p h3
            have hlt := (List.getElem?_eq_some.mp hev).1
            exact ⟨ev, by rw [List.getElem?_append, if_pos hlt]; exact hev, hcam, hend⟩
        · -- open events are referenced
          intro ev hev hend
          rcases List.mem_append.mp hev with h3 | h3
          · obtain ⟨c, hc⟩ := hOpen ev h3 hend
            exact ⟨c, List.mem_cons_of_mem _ hc⟩
          · simp at h3
            subst h3
            exact ⟨cid, List.mem_cons_self _ _⟩
      · rw [if_pos (by simpa using h2)]
        exact ⟨hIds, hKa, hKb, hAct, hOpen⟩
  | stop cid te se db =>
    simp only [goodAction, Bool.and_eq_true, Bool.or_eq_true, Bool.not_eq_true'] at ha
    obtain ⟨hdb, hte⟩ := ha
    subst hdb
    simp only [step, stopRecord]
    split
    · exact ⟨hIds, hKa, hKb, hAct, hOpen⟩
    · rename_i eid hl
      have hcond : ¬(¬te = true ∧ indicatesFailure se = true) := by
        rintro ⟨hnte, hfail⟩
        rcases hte with h | h
        · exact hnte h
        · rw [h] at hfail
          exact Bool.false_ne_true hfail
      rw [if_neg hcond, if_neg (by simp)]
      have hment : (cid, eid) ∈ st.active := alookup_mem hl
      obtain ⟨eve, heve, hevcam, hevend⟩ := hAct (cid, eid) hment
      have hevid : eve.id = eid := hIds eid eve heve
      have hfind : (st.events.find? (fun ev => ev.id == eid)).isSome = true := by
        rw [List.find?_isSome]
        exact ⟨eve, List.getElem?_mem heve, by simp [hevid]⟩
      split
      next evf hf =>
        show Inv ⟨st.events.map (fun ev => if ev.id = eid then ⟨ev.id, ev.cam, some st.clock⟩ else ev),
          st.active.filter (fun p => p.1 != cid), st.clock + 1⟩
        constructor
        · -- ids
          intro i ev hi
          rw [List.getElem?_map] at hi
          obtain ⟨ev0, hev0, hup⟩ := Option.map_eq_some'.mp hi
          have := hIds i ev0 hev0
          by_cases hc : ev0.id = eid
          · rw [if_pos hc] at hup
            rw [← hup]
            exact this
          · rw [if_neg hc] at hup
            rw [← hup]
            exact this
        constructor
        · -- keys nodup
          exact List.Nodup.sublist (List.Sublist.map _ (List.filter_sublist _)) hKa
        constructor
        · -- event ids nodup
          exact List.Nodup.sublist (List.Sublist.map _ (List.filter_sublist _)) hKb
        constructor
        · -- session entries point at open events
          intro p hp
          obtain ⟨hpmem, hpne⟩ := List.mem_filter.mp hp
          obtain ⟨ev, hev, hcam, hend⟩ := hAct p hpmem
          have hpid : ev.id = p.2 := hIds p.2 ev hev
          have hne : p.2 ≠ eid := by
            intro he
            have : p = (cid, eid) := by
              have := List.inj_on_of_nodup_map hKb hpmem hment (by simp [he])
              exact this
            rw [this] at hpne
            simp at hpne
          refine ⟨ev, ?_, hcam, hend⟩
          rw [List.getElem?_map, hev, Option.map_some']
          rw [if_neg (by omega)]
        · -- open events are referenced
          intro ev hev hend
          obtain ⟨ev0, hev0, hup⟩ := List.mem_map.mp hev
          by_cases hc : ev0.id = eid
          · rw [if_pos hc] at hup
            rw [← hup] at hend
            simp at hend
          · rw [if_neg hc] at hup
            subst hup
            obtain ⟨c, hcmem⟩ := hOpen ev0 hev0 hend
            have hcne : c ≠ cid := by
              intro he
              subst he
              have := mem_alookup hKa hcmem
              rw [hl] at this
              simp at this
              exact hc this.symm
            refine ⟨c, List.mem_filter.mpr ⟨hcmem, ?_⟩⟩
            simpa using hcne
      next hf =>
        rw [hf] at hfind
        exact absurd hfind (by simp)

theorem inv_fold :
    ∀ (tr : List Action) (st : SMState), Inv st → (∀ a ∈ tr, goodAction a = true) →
      Inv (tr.foldl step st) := by
  intro tr
  induction tr with
  | nil => exact fun st h _ => h
  | cons a rest ih =>
    intro st hI hg
    rw [List.foldl_cons]
    exact ih (step st a) (inv_step hI (hg a (List.mem_cons_self a rest)))
      (fun b hb => hg b (List.mem_cons_of_mem a hb))

/-- C1, amended: in every state reachable by begin/end webhook calls in
which every DB write and every recording-subprocess launch succeeds and no
stop's termination output indicates failure, a RecordingEvent has
`end_time = null` exactly when an `active_recordings` entry referencing its
id exists.  (Failure outcomes break the invariant: see the counterexample,
and the C2/C3 findings.) -/
theorem c1_invariant (tr : List Action) (h : tr.all goodAction = true) : OpenIff (run tr) := by
  have hI : Inv (run tr) :=
    inv_fold tr init inv_init (fun a ha => List.all_eq_true.mp h a ha)
  obtain ⟨hIds, hKa, hKb, hAct, hOpen⟩ := hI
  intro ev hev
  constructor
  · exact hOpen ev hev
  · rintro ⟨c, hc⟩
    obtain ⟨ev2, hev2, hcam, hend⟩ := hAct (c, ev.id) hc
    obtain ⟨i, hi⟩ := List.getElem?_of_mem hev
    have hid : ev.id = i := hIds i ev hi
    rw [hid] at hev2
    rw [hi] at hev2
    have : ev2 = ev := by injection hev2.symm
    rw [← this]
    exact hend

/-- C1 witness: the invariant at the state after a successful begin/end for
camera 1 followed by a successful begin for camera 2. -/
theorem c1_invariant_witness :
    ([Action.start 1 true true true, Action.stop 1 false "frames ok" true,
      Action.start 2 true true true].all goodAction = true) ∧
    OpenIff (run [Action.start 1 true true true, Action.stop 1 false "frames ok" true,
      Action.start 2 true true true]) :=
  ⟨by decide, c1_invariant _ (by decide)⟩

/-- C1, counterexample: after begin(1) in which the commit succeeded but the
ffmpeg launch failed, the state holds an event with `end_time = null` and no
active session referencing it — the claimed invariant is false for that
reachable state. -/
theorem c1_claim_false : ¬ OpenIff (run [Action.start 1 true true false]) := by
  intro h
  have hm : (⟨0, 1, none⟩ : Ev) ∈ (run [Action.start 1 true true false]).events := by decide
  obtain ⟨c, hc⟩ := (h _ hm).mp rfl
  have ha : (run [Action.start 1 true true false]).active = [] := by decide
  rw [ha] at hc
  exact (List.not_mem_nil _) hc

/-- C2, evaluated at the failing input: begin(5) where the camera exists and
the row commit succeeds but the ffmpeg launch then raises.  The webhook does
respond 500 as the claim says, but the committed RecordingEvent row survives
with `end_time` null and no session entry: the `db.rollback()` at
detector.py line 144 cannot undo the commit already performed at line 114,
so the orphan row is NOT deleted. -/
theorem c2_rollback_bug :
    startRecord init 5 true true false = (⟨[⟨0, 5, none⟩], [], 1⟩, .http500, false) := by
  decide

/-- C3, evaluated at the failing input: end(3) on an active session whose
ffmpeg stderr contains "Error".  The session entry is removed and the stop
reported as failed, but the early `return` at detector.py line 167 skips the
DB block, so `end_time` is NOT set and the event stays open — contradicting
the claim (and the spec's §3 invariant). -/
theorem c3_stop_failure_bug :
    stopRecord (run [Action.start 3 true true true]) 3 false "Error: ffmpeg failed" true
      = (⟨[⟨0, 3, none⟩], [], 1⟩, .processFailed) := by
  decide

theorem startRecord_already {st : SMState} {cid : Nat}
    (h : (alookup cid st.active).isSome = true) (ce co po : Bool) :
    startRecord st cid ce co po = (st, .alreadyRecording, false) := by
  rw [startRecord, if_pos h]

/-- C4: a begin call for a camera that already has an active session returns
"already recording", creates no event, launches no subprocess and leaves the
whole state unchanged, whatever the environment would have done; in
particular after begin(7), a second begin(7) with any outcome flags returns
"already recording" and exactly one event for camera 7 exists. -/
theorem c4_duplicate_start (st : SMState) (cid : Nat) (ce co po : Bool)
    (h : (alookup cid st.active).isSome = true) :
    startRecord st cid ce co po = (st, .alreadyRecording, false) ∧
    (∀ ce2 co2 po2, startRecord (run [Action.start 7 true true true]) 7 ce2 co2 po2
      = (run [Action.start 7 true true true], .alreadyRecording, false)) ∧
    (run [Action.start 7 true true true]).events.countP (fun ev => ev.cam == 7) = 1 := by
  refine ⟨startRecord_already h ce co po,
    fun ce2 co2 po2 => startRecord_already (by decide) ce2 co2 po2, by decide⟩

/-- C4 witness: the no-op at the concrete state reached by begin(7). -/
theorem c4_duplicate_start_witness :
    (alookup 7 (run [Action.start 7 true true true]).active).isSome = true ∧
    startRecord (run [Action.start 7 true true true]) 7 true false true
      = (run [Action.start 7 true true true], .alreadyRecording, false) :=
  ⟨by decide, (c4_duplicate_start (run [Action.start 7 true true true]) 7 true false true
    (by decide)).1⟩

/-! # C5, C6, C10: the process manager -/

theorem startMotions_lookup {cid : Nat} {p : Proc} :
    ∀ (l : List Cam) (fresh : Nat) (running : List (Nat × Proc)),
      alookup cid running = some p →
      alookup cid (startMotions fresh running l).1 = some p ∧
      PMAct.genConf cid ∉ (startMotions fresh running l).2.2 ∧
      PMAct.spawnMotion cid ∉ (startMotions fresh running l).2.2 := by
  intro l
  induction l with
  | nil =>
    intro fresh running h
    exact ⟨h, by simp [startMotions], by simp [startMotions]⟩
  | cons cam rest ih =>
    intro fresh running h
    simp only [startMotions]
    by_cases hc : (alookup cam.id running).isSome = true
    · rw [if_pos hc]
      exact ih fresh running h
    · rw [if_neg hc]
      have hne : cam.id ≠ cid := by
        intro he
        rw [he, h] at hc
        simp at hc
      obtain ⟨ha, hb, hcn⟩ :=
        ih (fresh + 1) (running ++ [(cam.id, ⟨fresh, true⟩)]) (alookup_append_some h)
      refine ⟨ha, ?_, ?_⟩
      · intro hmem
        rcases List.mem_cons.mp hmem with h3 | h3
        · injection h3 with h5
          exact hne h5.symm
        · rcases List.mem_cons.mp h3 with h4 | h4
          · exact PMAct.noConfusion h4
          · exact hb h4
      · intro hmem
        rcases List.mem_cons.mp hmem with h3 | h3
        · exact PMAct.noConfusion h3
        · rcases List.mem_cons.mp h3 with h4 | h4
          · injection h4 with h5
            exact hne h5.symm
          · exact hcn h4

theorem startMotions_not_mem {cid : Nat} :
    ∀ (l : List Cam) (fresh : Nat) (running : List (Nat × Proc)),
      cid ∉ l.map Cam.id →
      alookup cid (startMotions fresh running l).1 = alookup cid running := by
  intro l
  induction l with
  | nil => intro fresh running _; rfl
  | cons cam rest ih =>
    intro fresh running hmem
    simp only [List.map_cons, List.mem_cons] at hmem
    push_neg at hmem
    obtain ⟨hne, hrest⟩ := hmem
    simp only [startMotions]
    by_cases hc : (alookup cam.id running).isSome = true
    · rw [if_pos hc]
      exact ih fresh running hrest
    · rw [if_neg hc]
      show alookup cid (startMotions (fresh + 1) (running ++ [(cam.id, ⟨fresh, true⟩)]) rest).1
        = alookup cid running
      have hmid := ih (fresh + 1) (running ++ [(cam.id, (⟨fresh, true⟩ : Proc))]) hrest
      rw [hmid]
      cases hr : alookup cid running with
      | some v => exact alookup_append_some hr
      | none =>
        rw [alookup_append_none hr]
        simp [alookup, Ne.symm hne]

theorem stopMotions_kept {cid : Nat} {ids : List Nat} (recs : List Nat)
    (hin : ids.contains cid = true) :
    ∀ l : List (Nat × Proc),
      alookup cid (stopMotions ids recs l).1 = alookup cid l ∧
      PMAct.termMotion cid ∉ (stopMotions ids recs l).2 ∧
      PMAct.stopSignal cid ∉ (stopMotions ids recs l).2 := by
  intro l
  induction l with
  | nil => exact ⟨rfl, by simp [stopMotions], by simp [stopMotions]⟩
  | cons q rest ih =>
    obtain ⟨k, p⟩ := q
    obtain ⟨ih1, ih2, ih3⟩ := ih
    simp only [stopMotions]
    by_cases hk : ids.contains k = true
    · rw [if_pos hk]
      by_cases he : k = cid
      · subst he
        exact ⟨by simp [alookup], ih2, ih3⟩
      · refine ⟨?_, ih2, ih3⟩
        simp only [alookup, if_neg he]
        exact ih1
    · rw [if_neg hk]
      have hne : k ≠ cid := by
        intro he
        rw [he, hin] at hk
        exact hk rfl
      refine ⟨?_, ?_, ?_⟩
      · rw [ih1]
        simp [alookup, hne]
      · intro hmem
        rcases List.mem_cons.mp hmem with h3 | h3
        · injection h3 with h5
          exact hne h5.symm
        · rcases List.mem_append.mp h3 with h4 | h4
          · by_cases hr : recs.contains k = true
            · rw [if_pos hr] at h4
              simp at h4
            · rw [if_neg hr] at h4
              simp at h4
          · exact ih2 h4
      · intro hmem
        rcases List.mem_cons.mp hmem with h3 | h3
        · exact PMAct.noConfusion h3
        · rcases List.mem_append.mp h3 with h4 | h4
          · by_cases hr : recs.contains k = true
            · rw [if_pos hr] at h4
              simp at h4
              exact hne h4.symm
            · rw [if_neg hr] at h4
              simp at h4
          · exact ih3 h4

theorem stopMotions_dropped {cid : Nat} {ids recs : List Nat} (hout : ids.contains cid = false) :
    ∀ l : List (Nat × Proc), alookup cid (stopMotions ids recs l).1 = none := by
  intro l
  induction l with
  | nil => rfl
  | cons q rest ih =>
    obtain ⟨k, p⟩ := q
    simp only [stopMotions]
    by_cases hk : ids.contains k = true
    · rw [if_pos hk]
      have hne : k ≠ cid := by
        intro he
        rw [he, hout] at hk
        exact Bool.false_ne_true hk
      simp only [alookup, if_neg hne]
      exact ih
    · rw [if_neg hk]
      exact ih

theorem stopMotions_signal {cid : Nat} {p : Proc} {ids recs : List Nat}
    (hout : ids.contains cid = false) (hrec : recs.contains cid = true) :
    ∀ l : List (Nat × Proc), (cid, p) ∈ l →
      PMAct.termMotion cid ∈ (stopMotions ids recs l).2 ∧
      PMAct.stopSignal cid ∈ (stopMotions ids recs l).2 := by
  intro l
  induction l with
  | nil => intro h; simp at h
  | cons q rest ih =>
    intro hmem
    obtain ⟨k, w⟩ := q
    simp only [stopMotions]
    rcases List.mem_cons.mp hmem with h1 | h1
    · have hk : k = cid := by
        injection h1 with ha hb
        exact ha.symm
      subst hk
      rw [if_neg (by rw [hout]; simp)]
      rw [if_pos hrec]
      constructor
      · exact List.mem_cons_self _ _
      · exact List.mem_cons_of_mem _ (List.mem_append.mpr (Or.inl (List.mem_cons_self _ _)))
    · obtain ⟨ih1, ih2⟩ := ih h1
      by_cases hk : ids.contains k = true
      · rw [if_pos hk]
        exact ⟨ih1, ih2⟩
      · rw [if_neg hk]
        refine ⟨List.mem_cons_of_mem _ (List.mem_append.mpr (Or.inr ih1)),
          List.mem_cons_of_mem _ (List.mem_append.mpr (Or.inr ih2))⟩

theorem superviseContinuous_alive {cid : Nat} {p : Proc} (halive : p.alive = true) :
    ∀ (l : List Cam) (fresh : Nat) (running : List (Nat × Proc)),
      alookup cid running = some p →
      alookup cid (superviseContinuous fresh running l).1 = some p ∧
      PMAct.spawnContinuous cid ∉ (superviseContinuous fresh running l).2.2 := by
  intro l
  induction l with
  | nil =>
    intro fresh running h
    exact ⟨h, by simp [superviseContinuous]⟩
  | cons cam rest ih =>
    intro fresh running h
    simp only [superviseContinuous]
    split
    next hm =>
      have hne : cam.id ≠ cid := by
        intro he
        rw [he, h] at hm
        exact Option.noConfusion hm
      obtain ⟨ih1, ih2⟩ :=
        ih (fresh + 1) (running ++ [(cam.id, ⟨fresh, true⟩)]) (alookup_append_some h)
      refine ⟨ih1, ?_⟩
      intro hmem
      rcases List.mem_cons.mp hmem with h3 | h3
      · injection h3 with h5
        exact hne h5.symm
      · exact ih2 h3
    next q hm =>
      by_cases hal : q.alive = true
      · rw [if_pos hal]
        exact ih fresh running h
      · rw [if_neg hal]
        have hne : cam.id ≠ cid := by
          intro he
          rw [he, h] at hm
          injection hm with h5
          rw [h5] at halive
          exact hal halive
        obtain ⟨ih1, ih2⟩ := ih (fresh + 1)
          (running.map (fun q2 => if q2.1 = cam.id then (q2.1, (⟨fresh, true⟩ : Proc)) else q2))
          (by rw [alookup_map_replace_ne hne.symm]; exact h)
        refine ⟨ih1, ?_⟩
        intro hmem
        rcases List.mem_cons.mp hmem with h3 | h3
        · injection h3 with h5
          exact hne h5.symm
        · exact ih2 h3

theorem superviseContinuous_dead {cid : Nat} {p : Proc} (hdead : p.alive = false) :
    ∀ (l : List Cam) (fresh : Nat) (running : List (Nat × Proc)),
      alookup cid running = some p → (∃ c ∈ l, c.id = cid) →
      ∃ w : Proc, w.alive = true ∧
        alookup cid (superviseContinuous fresh running l).1 = some w ∧
        PMAct.spawnContinuous cid ∈ (superviseContinuous fresh running l).2.2 := by
  intro l
  induction l with
  | nil =>
    intro fresh running _ hex
    simp at hex
  | cons cam rest ih =>
    intro fresh running h hex
    simp only [superviseContinuous]
    by_cases hce : cam.id = cid
    · rw [hce]
      split
      next hm =>
        rw [h] at hm
        exact Option.noConfusion hm
      next q hm =>
        rw [h] at hm
        have hq : p = q := by injection hm
        rw [if_neg (by rw [← hq, hdead]; simp)]
        have hrep : alookup cid
            (running.map (fun q2 => if q2.1 = cid then (q2.1, (⟨fresh, true⟩ : Proc)) else q2))
            = some ⟨fresh, true⟩ := alookup_map_replace_self h
        obtain ⟨ih1, _⟩ := superviseContinuous_alive rfl rest (fresh + 1) _ hrep
        exact ⟨⟨fresh, true⟩, rfl, ih1, List.mem_cons_self _ _⟩
    · have hrest : ∃ c ∈ rest, c.id = cid := by
        rcases hex with ⟨c, hc, hcid⟩
        rcases List.mem_cons.mp hc with h1 | h1
        · exact absurd (h1 ▸ hcid) hce
        · exact ⟨c, h1, hcid⟩
      split
      next hm =>
        obtain ⟨w, hw1, hw2, hw3⟩ :=
          ih (fresh + 1) (running ++ [(cam.id, ⟨fresh, true⟩)]) (alookup_append_some h) hrest
        exact ⟨w, hw1, hw2, List.mem_cons_of_mem _ hw3⟩
      next q hm =>
        by_cases hal : q.alive = true
        · rw [if_pos hal]
          exact ih fresh running h hrest
        · rw [if_neg hal]
          obtain ⟨w, hw1, hw2, hw3⟩ := ih (fresh + 1)
            (running.map (fun q2 => if q2.1 = cam.id then (q2.1, (⟨fresh, true⟩ : Proc)) else q2))
            (by rw [alookup_map_replace_ne (fun he => hce he.symm)]; exact h) hrest
          exact ⟨w, hw1, hw2, List.mem_cons_of_mem _ hw3⟩

theorem stopContinuous_kept {cid : Nat} {ids : List Nat} (hin : ids.contains cid = true) :
    ∀ l : List (Nat × Proc),
      alookup cid (stopContinuous ids l).1 = alookup cid l ∧
      PMAct.termContinuous cid ∉ (stopContinuous ids l).2 := by
  intro l
  induction l with
  | nil => exact ⟨rfl, by simp [stopContinuous]⟩
  | cons q rest ih =>
    obtain ⟨k, p⟩ := q
    obtain ⟨ih1, ih2⟩ := ih
    simp only [stopContinuous]
    by_cases hk : ids.contains k = true
    · rw [if_pos hk]
      by_cases he : k = cid
      · subst he
        exact ⟨by simp [alookup], ih2⟩
      · refine ⟨?_, ih2⟩
        simp only [alookup, if_neg he]
        exact ih1
    · rw [if_neg hk]
      have hne : k ≠ cid := by
        intro he
        rw [he, hin] at hk
        exact hk rfl
      refine ⟨?_, ?_⟩
      · rw [ih1]
        simp [alookup, hne]
      · intro hmem
        rcases List.mem_cons.mp hmem with h3 | h3
        · injection h3 with h5
          exact hne h5.symm
        · exact ih2 h3

theorem superviseContinuous_acts :
    ∀ (l : List Cam) (fresh : Nat) (running : List (Nat × Proc)),
      ∀ a ∈ (superviseContinuous fresh running l).2.2, ∃ k, a = PMAct.spawnContinuous k := by
  intro l
  induction l with
  | nil => intro fresh running a ha; simp [superviseContinuous] at ha
  | cons cam rest ih =>
    intro fresh running a ha
    simp only [superviseContinuous] at ha
    split at ha
    next hm =>
      rcases List.mem_cons.mp ha with h1 | h1
      · exact ⟨cam.id, h1⟩
      · exact ih _ _ a h1
    next q hm =>
      by_cases hal : q.alive = true
      · rw [if_pos hal] at ha
        exact ih _ _ a ha
      · rw [if_neg hal] at ha
        rcases List.mem_cons.mp ha with h1 | h1
        · exact ⟨cam.id, h1⟩
        · exact ih _ _ a h1

theorem stopContinuous_acts :
    ∀ (ids : List Nat) (l : List (Nat × Proc)),
      ∀ a ∈ (stopContinuous ids l).2, ∃ k, a = PMAct.termContinuous k := by
  intro ids l
  induction l with
  | nil => intro a ha; simp [stopContinuous] at ha
  | cons q rest ih =>
    intro a ha
    obtain ⟨k, p⟩ := q
    simp only [stopContinuous] at ha
    by_cases hk : ids.contains k = true
    · rw [if_pos hk] at ha
      exact ih a ha
    · rw [if_neg hk] at ha
      rcases List.mem_cons.mp ha with h1 | h1
      · exact ⟨k, h1⟩
      · exact ih a h1

theorem startMotions_acts :
    ∀ (l : List Cam) (fresh : Nat) (running : List (Nat × Proc)),
      ∀ a ∈ (startMotions fresh running l).2.2,
        (∃ k, a = PMAct.genConf k) ∨ (∃ k, a = PMAct.spawnMotion k) := by
  intro l
  induction l with
  | nil => intro fresh running a ha; simp [startMotions] at ha
  | cons cam rest ih =>
    intro fresh running a ha
    simp only [startMotions] at ha
    by_cases hc : (alookup cam.id running).isSome = true
    · rw [if_pos hc] at ha
      exact ih _ _ a ha
    · rw [if_neg hc] at ha
      rcases List.mem_cons.mp ha with h1 | h1
      · exact Or.inl ⟨cam.id, h1⟩
      · rcases List.mem_cons.mp h1 with h2 | h2
        · exact Or.inr ⟨cam.id, h2⟩
        · exact ih _ _ a h2

theorem stopMotions_acts :
    ∀ (ids recs : List Nat) (l : List (Nat × Proc)),
      ∀ a ∈ (stopMotions ids recs l).2,
        (∃ k, a = PMAct.termMotion k) ∨ (∃ k, a = PMAct.stopSignal k) := by
  intro ids recs l
  induction l with
  | nil => intro a ha; simp [stopMotions] at ha
  | cons q rest ih =>
    intro a ha
    obtain ⟨k, p⟩ := q
    simp only [stopMotions] at ha
    by_cases hk : ids.contains k = true
    · rw [if_pos hk] at ha
      exact ih a ha
    · rw [if_neg hk] at ha
      rcases List.mem_cons.mp ha with h1 | h1
      · exact Or.inl ⟨k, h1⟩
      · rcases List.mem_append.mp h1 with h2 | h2
        · by_cases hr : recs.contains k = true
          · rw [if_pos hr] at h2
            simp at h2
            exact Or.inr ⟨k, h2⟩
          · rw [if_neg hr] at h2
            simp at h2
        · exact ih a h2

theorem contains_of_mem {a : Nat} {l : List Nat} (h : a ∈ l) : l.contains a = true := by
  induction l with
  | nil => simp at h
  | cons b rest ih =>
    rcases List.mem_cons.mp h with h1 | h1
    · subst h1
      simp [List.contains]
    · simp [List.contains]
      right
      simpa [List.contains] using ih h1

theorem not_mem_of_contains_false {a : Nat} {l : List Nat} (h : l.contains a = false) :
    a ∉ l := by
  intro hmem
  rw [contains_of_mem hmem] at h
  exact Bool.noConfusion h

theorem startMotions_congr :
    ∀ (l l2 : List Cam), l.map Cam.id = l2.map Cam.id →
      ∀ (fresh : Nat) (running : List (Nat × Proc)),
        startMotions fresh running l = startMotions fresh running l2 := by
  intro l
  induction l with
  | nil =>
    intro l2 h fresh running
    cases l2 with
    | nil => rfl
    | cons c cs => simp at h
  | cons cam rest ih =>
    intro l2 h fresh running
    cases l2 with
    | nil => simp at h
    | cons cam2 rest2 =>
      simp only [List.map_cons, List.cons.injEq] at h
      obtain ⟨hid, hrest⟩ := h
      simp only [startMotions, hid]
      by_cases hc : (alookup cam2.id running).isSome = true
      · rw [if_pos hc, if_pos hc]
        exact ih rest2 hrest fresh running
      · rw [if_neg hc, if_neg hc]
        rw [ih rest2 hrest (fresh + 1) (running ++ [(cam2.id, (⟨fresh, true⟩ : Proc))])]

theorem superviseContinuous_congr :
    ∀ (l l2 : List Cam), l.map Cam.id = l2.map Cam.id →
      ∀ (fresh : Nat) (running : List (Nat × Proc)),
        superviseContinuous fresh running l = superviseContinuous fresh running l2 := by
  intro l
  induction l with
  | nil =>
    intro l2 h fresh running
    cases l2 with
    | nil => rfl
    | cons c cs => simp at h
  | cons cam rest ih =>
    intro l2 h fresh running
    cases l2 with
    | nil => simp at h
    | cons cam2 rest2 =>
      simp only [List.map_cons, List.cons.injEq] at h
      obtain ⟨hid, hrest⟩ := h
      simp only [superviseContinuous, hid]
      simp only [ih rest2 hrest]

/-- The reconciliation cycle reads only each camera's id, motion_type and
continuous_recording flag: rewriting ROI and sensitivity arbitrarily leaves
the whole cycle outcome unchanged (the configuration once written is never
compared against the running process). -/
theorem pmCycle_congr (f : Cam → Cam) (hid : ∀ c, (f c).id = c.id)
    (hmt : ∀ c, (f c).motion_type = c.motion_type)
    (hcr : ∀ c, (f c).continuous_recording = c.continuous_recording)
    (cams : List Cam) (recs : List Nat) (st : PMState) :
    pmCycle (cams.map f) recs st = pmCycle cams recs st := by
  have hfa : (cams.map f).filter (fun c => c.motion_type == "active")
      = (cams.filter (fun c => c.motion_type == "active")).map f := by
    rw [List.filter_map]
    congr 1
    apply List.filter_congr
    intro c _
    simp [Function.comp, hmt]
  have hca : (cams.map f).filter (fun c => c.continuous_recording)
      = (cams.filter (fun c => c.continuous_recording)).map f := by
    rw [List.filter_map]
    congr 1
    apply List.filter_congr
    intro c _
    simp [Function.comp, hcr]
  have hmapid : ∀ l2 : List Cam, (l2.map f).map Cam.id = l2.map Cam.id := by
    intro l2
    rw [List.map_map]
    apply List.map_congr_left
    intro c _
    exact hid c
  have hai : activeIds (cams.map f) = activeIds cams := by
    rw [activeIds, activeIds, hfa, hmapid]
  simp only [pmCycle]
  rw [hfa, hca, hai,
    startMotions_congr _ _ (hmapid (cams.filter (fun c => c.motion_type == "active")))
      st.fresh st.runningMotion,
    superviseContinuous_congr _ _ (hmapid (cams.filter (fun c => c.continuous_recording))),
    hmapid (cams.filter (fun c => c.continuous_recording))]

/-- C5, counterexample: a camera that stays in the detection desired set
with a registered handle is left completely alone by the cycle — no
artifact regeneration, no restart — no matter how its ROI and sensitivity
have changed (here the same registry state is reconciled under two quite
different configurations with identical, empty outcomes), contradicting the
claimed regenerate-and-restart behaviour. -/
theorem c5_claim_false :
    pmCycle [⟨1, "active", some "0,1", some 20, false⟩] [] ⟨[(1, ⟨0, true⟩)], [], 1⟩
      = (⟨[(1, ⟨0, true⟩)], [], 1⟩, []) ∧
    pmCycle [⟨1, "active", some "5,6", some 90, false⟩] [] ⟨[(1, ⟨0, true⟩)], [], 1⟩
      = (⟨[(1, ⟨0, true⟩)], [], 1⟩, []) := by
  decide

/-- C5, amended: on each reconciliation cycle, a camera that stays in the
detection desired set and already has a registered detection handle keeps
exactly that handle — the reconciler generates no artifacts for it, spawns
no detection process, terminates none — and changing the camera's ROI or
sensitivity has no effect whatsoever on the cycle (in particular it never
restarts the continuous-recording process); artifacts are only generated
when a detection process is launched for a camera without a handle. -/
theorem c5_no_restart (cams : List Cam) (recs : List Nat) (st : PMState) (cid : Nat) (p : Proc)
    (hrun : alookup cid st.runningMotion = some p)
    (hdes : (activeIds cams).contains cid = true) :
    alookup cid (pmCycle cams recs st).1.runningMotion = some p ∧
    PMAct.genConf cid ∉ (pmCycle cams recs st).2 ∧
    PMAct.spawnMotion cid ∉ (pmCycle cams recs st).2 ∧
    PMAct.termMotion cid ∉ (pmCycle cams recs st).2 ∧
    ∀ roi2 sens2, pmCycle (cams.map (fun c => if c.id = cid
        then ⟨c.id, c.motion_type, roi2, sens2, c.continuous_recording⟩ else c)) recs st
      = pmCycle cams recs st := by
  obtain ⟨hm1a, hm1b, hm1c⟩ :=
    startMotions_lookup (cams.filter (fun c => c.motion_type == "active"))
      st.fresh st.runningMotion hrun
  obtain ⟨hm2a, hm2b, hm2c⟩ := stopMotions_kept recs hdes
    (startMotions st.fresh st.runningMotion
      (cams.filter (fun c => c.motion_type == "active"))).1
  refine ⟨?_, ?_, ?_, ?_, ?_⟩
  · show alookup cid (stopMotions (activeIds cams) recs
      (startMotions st.fresh st.runningMotion
        (cams.filter (fun c => c.motion_type == "active"))).1).1 = some p
    rw [hm2a, hm1a]
  · intro hmem
    simp only [pmCycle, List.mem_append] at hmem
    rcases hmem with ((h | h) | h) | h
    · exact hm1b h
    · rcases stopMotions_acts _ _ _ _ h with ⟨k, hk⟩ | ⟨k, hk⟩ <;> exact PMAct.noConfusion hk
    · obtain ⟨k, hk⟩ := superviseContinuous_acts _ _ _ _ h
      exact PMAct.noConfusion hk
    · obtain ⟨k, hk⟩ := stopContinuous_acts _ _ _ h
      exact PMAct.noConfusion hk
  · intro hmem
    simp only [pmCycle, List.mem_append] at hmem
    rcases hmem with ((h | h) | h) | h
    · exact hm1c h
    · rcases stopMotions_acts _ _ _ _ h with ⟨k, hk⟩ | ⟨k, hk⟩ <;> exact PMAct.noConfusion hk
    · obtain ⟨k, hk⟩ := superviseContinuous_acts _ _ _ _ h
      exact PMAct.noConfusion hk
    · obtain ⟨k, hk⟩ := stopContinuous_acts _ _ _ h
      exact PMAct.noConfusion hk
  · intro hmem
    simp only [pmCycle, List.mem_append] at hmem
    rcases hmem with ((h | h) | h) | h
    · rcases startMotions_acts _ _ _ _ h with ⟨k, hk⟩ | ⟨k, hk⟩ <;> exact PMAct.noConfusion hk
    · exact hm2b h
    · obtain ⟨k, hk⟩ := superviseContinuous_acts _ _ _ _ h
      exact PMAct.noConfusion hk
    · obtain ⟨k, hk⟩ := stopContinuous_acts _ _ _ h
      exact PMAct.noConfusion hk
  · intro roi2 sens2
    apply pmCycle_congr
    · intro c
      by_cases h : c.id = cid <;> simp [h]
    · intro c
      by_cases h : c.id = cid <;> simp [h]
    · intro c
      by_cases h : c.id = cid <;> simp [h]

/-- C5 witness: the no-restart contract at a concrete registry state. -/
theorem c5_no_restart_witness :
    alookup 1 (⟨[(1, ⟨0, true⟩)], [], 1⟩ : PMState).runningMotion = some ⟨0, true⟩ ∧
    (activeIds [⟨1, "active", some "0,1", some 20, false⟩]).contains 1 = true ∧
    alookup 1 (pmCycle [⟨1, "active", some "0,1", some 20, false⟩] []
      ⟨[(1, ⟨0, true⟩)], [], 1⟩).1.runningMotion = some ⟨0, true⟩ :=
  ⟨by decide, by decide,
    (c5_no_restart [⟨1, "active", some "0,1", some 20, false⟩] [] ⟨[(1, ⟨0, true⟩)], [], 1⟩
      1 ⟨0, true⟩ (by decide) (by decide)).1⟩

/-- C6, counterexample: camera 1 stays in the detection desired set and its
detection handle is dead (`poll()` would report an exit), yet the cycle
leaves the dead handle registered and spawns nothing — the claimed
liveness-probe-and-relaunch does not exist for detection processes. -/
theorem c6_claim_false :
    pmCycle [⟨1, "active", some "9", some 90, false⟩] [] ⟨[(1, ⟨0, false⟩)], [], 1⟩
      = (⟨[(1, ⟨0, false⟩)], [], 1⟩, []) := by
  decide

/-- C6, amended: a detection subprocess that has exited unexpectedly while
its camera remains in the detection desired set is NOT relaunched — the
reconciler never polls detection handles, so the dead handle stays
registered and no spawn occurs; only continuous-recording processes are
liveness-probed: a dead continuous handle for a camera still in the
continuous set is replaced by a freshly spawned live process in the same
cycle. -/
theorem c6_liveness (cams : List Cam) (recs : List Nat) (st : PMState) (cid t : Nat)
    (hdead : alookup cid st.runningMotion = some ⟨t, false⟩)
    (hdes : (activeIds cams).contains cid = true) :
    alookup cid (pmCycle cams recs st).1.runningMotion = some ⟨t, false⟩ ∧
    PMAct.spawnMotion cid ∉ (pmCycle cams recs st).2 ∧
    (∀ (cams2 : List Cam) (st2 : PMState) (q : Proc),
      alookup cid st2.runningContinuous = some q → q.alive = false →
      (∃ c ∈ cams2, c.id = cid ∧ c.continuous_recording = true) →
      ∃ w : Proc, w.alive = true ∧
        alookup cid (pmCycle cams2 recs st2).1.runningContinuous = some w ∧
        PMAct.spawnContinuous cid ∈ (pmCycle cams2 recs st2).2) := by
  obtain ⟨hm1a, hm1b, hm1c⟩ :=
    startMotions_lookup (cams.filter (fun c => c.motion_type == "active"))
      st.fresh st.runningMotion hdead
  obtain ⟨hm2a, hm2b, hm2c⟩ := stopMotions_kept recs hdes
    (startMotions st.fresh st.runningMotion
      (cams.filter (fun c => c.motion_type == "active"))).1
  refine ⟨?_, ?_, ?_⟩
  · show alookup cid (stopMotions (activeIds cams) recs
      (startMotions st.fresh st.runningMotion
        (cams.filter (fun c => c.motion_type == "active"))).1).1 = some ⟨t, false⟩
    rw [hm2a, hm1a]
  · intro hmem
    simp only [pmCycle, List.mem_append] at hmem
    rcases hmem with ((h | h) | h) | h
    · exact hm1c h
    · rcases stopMotions_acts _ _ _ _ h with ⟨k, hk⟩ | ⟨k, hk⟩ <;> exact PMAct.noConfusion hk
    · obtain ⟨k, hk⟩ := superviseContinuous_acts _ _ _ _ h
      exact PMAct.noConfusion hk
    · obtain ⟨k, hk⟩ := stopContinuous_acts _ _ _ h
      exact PMAct.noConfusion hk
  · intro cams2 st2 q hq hqdead hex
    obtain ⟨c, hc, hcid, hcont⟩ := hex
    have hcf : c ∈ cams2.filter (fun c2 => c2.continuous_recording) :=
      List.mem_filter.mpr ⟨hc, hcont⟩
    have hex2 : ∃ c2 ∈ cams2.filter (fun c2 => c2.continuous_recording), c2.id = cid :=
      ⟨c, hcf, hcid⟩
    obtain ⟨w, hw1, hw2, hw3⟩ := superviseContinuous_dead hqdead
      (cams2.filter (fun c2 => c2.continuous_recording))
      (startMotions st2.fresh st2.runningMotion
        (cams2.filter (fun c2 => c2.motion_type == "active"))).2.1
      st2.runningContinuous hq hex2
    have hcontains : ((cams2.filter (fun c2 => c2.continuous_recording)).map Cam.id).contains cid
        = true := by
      apply contains_of_mem
      exact List.mem_map.mpr ⟨c, hcf, hcid⟩
    obtain ⟨hk1, hk2⟩ := stopContinuous_kept hcontains
      (superviseContinuous
        (startMotions st2.fresh st2.runningMotion
          (cams2.filter (fun c2 => c2.motion_type == "active"))).2.1
        st2.runningContinuous (cams2.filter (fun c2 => c2.continuous_recording))).1
    refine ⟨w, hw1, ?_, ?_⟩
    · show alookup cid (stopContinuous
        ((cams2.filter (fun c2 => c2.continuous_recording)).map Cam.id)
        (superviseContinuous
          (startMotions st2.fresh st2.runningMotion
            (cams2.filter (fun c2 => c2.motion_type == "active"))).2.1
          st2.runningContinuous (cams2.filter (fun c2 => c2.continuous_recording))).1).1
        = some w
      rw [hk1, hw2]
    · show PMAct.spawnContinuous cid ∈ _ ++ _ ++ _ ++ _
      exact List.mem_append.mpr (Or.inl (List.mem_append.mpr (Or.inr hw3)))

/-- C6 witness: a dead detection handle at a concrete state is left dead,
and a dead continuous handle at a concrete state is relaunched. -/
theorem c6_liveness_witness :
    alookup 1 (⟨[(1, ⟨0, false⟩)], [], 1⟩ : PMState).runningMotion = some ⟨0, false⟩ ∧
    (activeIds [⟨1, "active", some "9", some 90, false⟩]).contains 1 = true ∧
    alookup 1 (pmCycle [⟨1, "active", some "9", some 90, false⟩] []
      ⟨[(1, ⟨0, false⟩)], [], 1⟩).1.runningMotion = some ⟨0, false⟩ :=
  ⟨by decide, by decide,
    (c6_liveness [⟨1, "active", some "9", some 90, false⟩] [] ⟨[(1, ⟨0, false⟩)], [], 1⟩
      1 0 (by decide) (by decide)).1⟩

/-- C10: when the cycle terminates a camera's detection daemon because the
camera left the detection desired set and an active recording session exists
for it, the cycle removes the handle, terminates the daemon, and issues a
`POST /stop_record/{id}` — and the stop handler that signal reaches removes
the session entry whatever the subprocess outcome, so the session is ended
rather than left dangling. -/
theorem c10_stop_on_removal (cams : List Cam) (sm : SMState) (st : PMState)
    (cid : Nat) (p : Proc) (eid : Nat)
    (hrun : alookup cid st.runningMotion = some p)
    (hdes : (activeIds cams).contains cid = false)
    (hrec : alookup cid sm.active = some eid) :
    PMAct.termMotion cid ∈ (pmCycle cams (sm.active.map Prod.fst) st).2 ∧
    PMAct.stopSignal cid ∈ (pmCycle cams (sm.active.map Prod.fst) st).2 ∧
    alookup cid (pmCycle cams (sm.active.map Prod.fst) st).1.runningMotion = none ∧
    (∀ te se db, alookup cid ((stopRecord sm cid te se db).1).active = none) := by
  have hrecs : (sm.active.map Prod.fst).contains cid = true := by
    apply contains_of_mem
    exact List.mem_map.mpr ⟨(cid, eid), alookup_mem hrec, rfl⟩
  have hnotmem : cid ∉ (cams.filter (fun c => c.motion_type == "active")).map Cam.id := by
    intro hmem
    have h7 : (activeIds cams).contains cid = true := contains_of_mem (by rw [activeIds]; exact hmem)
    rw [h7] at hdes
    exact Bool.noConfusion hdes
  have hm1 : alookup cid (startMotions st.fresh st.runningMotion
      (cams.filter (fun c => c.motion_type == "active"))).1 = some p := by
    rw [startMotions_not_mem _ st.fresh st.runningMotion hnotmem]
    exact hrun
  obtain ⟨hs1, hs2⟩ := stopMotions_signal hdes hrecs
    (startMotions st.fresh st.runningMotion
      (cams.filter (fun c => c.motion_type == "active"))).1 (alookup_mem hm1)
  refine ⟨?_, ?_, ?_, ?_⟩
  · show PMAct.termMotion cid ∈ _ ++ _ ++ _ ++ _
    exact List.mem_append.mpr (Or.inl (List.mem_append.mpr (Or.inl
      (List.mem_append.mpr (Or.inr hs1)))))
  · show PMAct.stopSignal cid ∈ _ ++ _ ++ _ ++ _
    exact List.mem_append.mpr (Or.inl (List.mem_append.mpr (Or.inl
      (List.mem_append.mpr (Or.inr hs2)))))
  · show alookup cid (stopMotions (activeIds cams) (sm.active.map Prod.fst)
      (startMotions st.fresh st.runningMotion
        (cams.filter (fun c => c.motion_type == "active"))).1).1 = none
    exact stopMotions_dropped hdes _
  · intro te se db
    simp only [stopRecord, hrec]
    split
    · exact alookup_filter_ne
    · split
      · exact alookup_filter_ne
      · split
        next => exact alookup_filter_ne
        next => exact alookup_filter_ne

/-- C10 witness: a concrete state where camera 4 left the desired set while
recording. -/
theorem c10_stop_on_removal_witness :
    alookup 4 (⟨[(4, ⟨0, true⟩)], [], 1⟩ : PMState).runningMotion = some ⟨0, true⟩ ∧
    (activeIds []).contains 4 = false ∧
    alookup 4 (⟨[⟨0, 4, none⟩], [(4, 0)], 1⟩ : SMState).active = some 0 ∧
    PMAct.stopSignal 4 ∈ (pmCycle [] ((⟨[⟨0, 4, none⟩], [(4, 0)], 1⟩ : SMState).active.map
      Prod.fst) ⟨[(4, ⟨0, true⟩)], [], 1⟩).2 :=
  ⟨by decide, by decide, by decide,
    (c10_stop_on_removal [] ⟨[⟨0, 4, none⟩], [(4, 0)], 1⟩ ⟨[(4, ⟨0, true⟩)], [], 1⟩ 4 ⟨0, true⟩ 0
      (by decide) (by decide) (by decide)).2.1⟩

end Detector
